import Mathlib

/-
Verification development for bind-to-tinydns.c (version 0.4).

The embedding is byte-level: C strings are modelled as `List Nat` of byte
values (C strings never contain a 0 byte, and the inputs exercised below are
7-bit ASCII, the domain on which the C library predicates isprint/isdigit
and the printf conversions behave as modelled here).  Machine integers are
modelled as Nat / Int with explicit reductions modulo 2^32 at the points
where the C code can overflow an `unsigned int` / wrap an `int`.  Fallible
C functions (returning 0/1, or calling fatal/exit) become Option-valued
functions, with `none` standing for the fatal path.  Recursions that walk a
buffer by a variable stride carry an explicit fuel argument that is always
at least the length of the remaining input, so every definition reduces in
the kernel.
-/

/-- Byte values of a Lean string literal, used to write concrete inputs. -/
def bytes (s : String) : List Nat := s.toList.map Char.toNat

/-- C isprint on a byte in the C locale: exactly the range 0x20 to 0x7e. -/
def isprintB (b : Nat) : Bool := decide (32 ≤ b) && decide (b ≤ 126)

/-- C isdigit on a byte. -/
def isdigitB (b : Nat) : Bool := decide (48 ≤ b) && decide (b ≤ 57)

/-- C tolower on a byte (ASCII letters only). -/
def toLowerB (b : Nat) : Nat := if 65 ≤ b ∧ b ≤ 90 then b + 32 else b

/-- Both sides of a strcasecmp comparison are compared through this map:
strcasecmp a b == 0 exactly when lowerBytes a = lowerBytes b. -/
def lowerBytes (s : List Nat) : List Nat := s.map toLowerB

/-- Decimal digit bytes of n; the fuel argument (always more than the number
of digits) makes the recursion structural so the kernel can evaluate it. -/
def decAux : Nat → Nat → List Nat
  | 0, _ => []
  | fuel + 1, n => if n < 10 then [48 + n] else decAux fuel (n / 10) ++ [48 + n % 10]

/-- printf %u of an unsigned value (decimal digit bytes). -/
def decNat (n : Nat) : List Nat := decAux (n + 1) n

/-- printf %d applied to a 32-bit quantity held as its unsigned residue:
values at or above 2^31 print as negative numbers. -/
def printIntD (n : Nat) : List Nat :=
  if n < 2147483648 then decNat n else 45 :: decNat (4294967296 - n)

/-- Signed reading of a 32-bit unsigned residue. -/
def toSigned (n : Nat) : Int := if n < 2147483648 then (n : Int) else (n : Int) - 4294967296

/-- printf %d of an Int value (used where the C variable is an int). -/
def printSigned (v : Int) : List Nat :=
  if v < 0 then 45 :: decNat (-v).toNat else decNat v.toNat

/-- sprintf of a backslash followed by %03o of a byte value below 256
(bind-to-tinydns.c lines 104, 140, 156, 877, 903). -/
def octEsc (n : Nat) : List Nat := [92, 48 + n / 64, 48 + n / 8 % 8, 48 + n % 8]

/-- The `string` struct of bind-to-tinydns.c (line 23): `text` is the encoded
buffer, `len` the logical length.  The third C field real_len equals
strlen(text) for every value the program constructs, so it is modelled as
`realLen` below instead of being stored. -/
structure string where
  text : List Nat
  len : Nat
deriving DecidableEq

/-- real_len of a string value (see the comment on `string`). -/
def realLen (s : string) : Nat := s.text.length

/-- Loop of sanitize_string (lines 76-161).  `acc` is the text built so far,
`len` the logical length so far.  Bytes at or above 0x80 would take the
glibc signed-char path in the source (lines 104, 156 print the promoted
int); no claim below evaluates the model on such bytes. -/
def sanLoop : List Nat → List Nat → Nat → Option string
  | [], acc, len => some ⟨acc, len⟩
  | c :: rest, acc, len =>
    if len = 255 then none
    else if isprintB c ∧ c ≠ 92 ∧ c ≠ 58 then sanLoop rest (acc ++ [c]) (len + 1)
    else if c = 92 then
      match rest with
      | [] => none
      | d :: rest2 =>
        if isdigitB d = false then
          if d = 58 ∨ d = 92 ∨ d = 46 ∨ isprintB d = false then
            sanLoop rest2 (acc ++ octEsc d) (len + 1)
          else sanLoop rest2 (acc ++ [d]) (len + 1)
        else
          match rest2 with
          | d2 :: d3 :: rest3 =>
            if isdigitB d2 ∧ isdigitB d3 then
              if (d - 48) * 100 + (d2 - 48) * 10 + (d3 - 48) > 255 then none
              else if isprintB ((d - 48) * 100 + (d2 - 48) * 10 + (d3 - 48))
                  ∧ (d - 48) * 100 + (d2 - 48) * 10 + (d3 - 48) ≠ 58
                  ∧ (d - 48) * 100 + (d2 - 48) * 10 + (d3 - 48) ≠ 46
                  ∧ (d - 48) * 100 + (d2 - 48) * 10 + (d3 - 48) ≠ 92 then
                sanLoop rest3 (acc ++ [(d - 48) * 100 + (d2 - 48) * 10 + (d3 - 48)]) (len + 1)
              else sanLoop rest3 (acc ++ octEsc ((d - 48) * 100 + (d2 - 48) * 10 + (d3 - 48))) (len + 1)
            else none
          | _ => none
    else sanLoop rest (acc ++ octEsc c) (len + 1)

/-- sanitize_string (lines 67-165); `none` is the failure return 1. -/
def sanitize_string (src : List Nat) : Option string := sanLoop src [] 0

/-- strstr for the two-byte pattern dot-dot (line 194). -/
def hasDoubleDot : List Nat → Bool
  | [] => false
  | [_] => false
  | a :: b :: rest => (decide (a = 46) && decide (b = 46)) || hasDoubleDot (b :: rest)

/-- qualify_domain (lines 173-266).  The origin argument is `none` for a NULL
origin pointer; an origin with len = 0 is the other "missing" case the
source tests with !origin || !origin->len. -/
def qualify_domain (name : List Nat) (origin : Option string) : Option string :=
  match sanitize_string name with
  | none => none
  | some sname =>
    if sname.len ≠ 0 then
      if sname.text.headD 0 = 46 ∧ sname.text.length ≥ 2 then none
      else if hasDoubleDot sname.text then none
      else if sname.text = [64] then
        match origin with
        | some o => if o.len ≠ 0 then some o else none
        | none => none
      else if sname.text.getLastD 0 = 46 then some sname
      else
        match origin with
        | none => none
        | some o =>
          if o.len = 0 then none
          else if o.text = [46] then
            if sname.len + 1 > 255 then none
            else some ⟨sname.text ++ [46], sname.len + 1⟩
          else if sname.len + 1 + o.len > 255 then none
          else some ⟨sname.text ++ [46] ++ o.text, sname.len + 1 + o.len⟩
    else
      match origin with
      | some o => if o.len ≠ 0 then some o else none
      | none => none

/-- Unit letters of the BIND duration syntax with their second values
(lines 300-309); the source computes w as part * 86400 * 7 with wraparound
at each step, which agrees with a single multiplication by 604800 mod 2^32. -/
def unitVal (c : Nat) : Option Nat :=
  if c = 119 ∨ c = 87 then some 604800
  else if c = 100 ∨ c = 68 then some 86400
  else if c = 104 ∨ c = 72 then some 3600
  else if c = 109 ∨ c = 77 then some 60
  else if c = 115 ∨ c = 83 then some 1
  else none

/-- Loop of str_to_uint (lines 284-317) with the final checks of lines
318-323 folded into the empty case.  total and part are unsigned ints, so
every update is reduced mod 2^32 (the source comments that it deliberately
allows overflow). -/
def stuLoop : List Nat → Bool → Bool → Bool → Nat → Nat → Option Nat
  | [], _, itf, ip, total, part =>
    if itf ∧ ip then none
    else some (if itf then total else part)
  | c :: rest, allow, itf, ip, total, part =>
    if isdigitB c then stuLoop rest allow itf true total ((part * 10 + (c - 48)) % 4294967296)
    else if allow = false ∨ ip = false then none
    else
      match unitVal c with
      | some u => stuLoop rest allow true false ((total + part * u) % 4294967296) 0
      | none => none

/-- str_to_uint (lines 273-327); `none` is the *ret = 1 failure path. -/
def str_to_uint (s : List Nat) (allow_time_fmt : Bool) : Option Nat :=
  if s = [] then none else stuLoop s allow_time_fmt false false 0 0

/-- Octet digit loop of sanitize_ip (lines 344-348): every byte before the
dot must be a digit; total is a C int, modelled as its 32-bit residue. -/
def ipDigits (s : List Nat) : Option Nat :=
  if s = [] then none
  else if s.all (fun b => isdigitB b) then
    some (s.foldl (fun a d => (a * 10 + (d - 48)) % 4294967296) 0)
  else none

/-- One octet of sanitize_ip: parse the digits, apply the signed bound check
of line 349, print with %d (line 350). -/
def ipOctet (s : List Nat) : Option (List Nat) :=
  match ipDigits s with
  | none => none
  | some t => if toSigned t > 255 then none else some (printSigned (toSigned t))

/-- sanitize_ip (lines 334-356): three strchr-delimited octets and a final
octet running to end of string. -/
def sanitize_ip (src : List Nat) : Option (List Nat) :=
  let p1 := src.takeWhile (fun b => decide (b ≠ 46))
  if p1.length = src.length then none
  else
    match ipOctet p1 with
    | none => none
    | some o1 =>
      let r1 := src.drop (p1.length + 1)
      let p2 := r1.takeWhile (fun b => decide (b ≠ 46))
      if p2.length = r1.length then none
      else
        match ipOctet p2 with
        | none => none
        | some o2 =>
          let r2 := r1.drop (p2.length + 1)
          let p3 := r2.takeWhile (fun b => decide (b ≠ 46))
          if p3.length = r2.length then none
          else
            match ipOctet p3 with
            | none => none
            | some o3 =>
              let r3 := r2.drop (p3.length + 1)
              match ipOctet r3 with
              | none => none
              | some o4 => some (o1 ++ [46] ++ o2 ++ [46] ++ o3 ++ [46] ++ o4)

/-- Scanner state of tokenize (lines 363-366).  `i` is the cumulative index
into the entry buffer (it does not reset between the physical lines of one
entry).  Tokens are slices of the line buffer delimited by the NUL bytes the
scanner writes; they are modelled as explicit byte lists, the last list
being the token in progress when in_token is true. -/
structure TokSt where
  tokens : List (List Nat)
  in_token : Bool
  found_nonblank : Bool
  in_doublequote : Bool
  in_quote : Bool
  set_in_quote : Bool
  in_txt : Bool
  paren : Nat
  i : Nat
  warnings : List String
deriving DecidableEq

/-- Result of one scanner step: continue, stop scanning this physical line
(the comment break of line 397), or fatal. -/
inductive StepRes where
  | next (st : TokSt)
  | stopLine (st : TokSt)
  | err (msg : String)
deriving DecidableEq

/-- Append a byte to the token currently in progress. -/
def appendLast (toks : List (List Nat)) (c : Nat) : List (List Nat) :=
  toks.dropLast ++ [toks.getLastD [] ++ [c]]

/-- A byte the C scanner skips with `continue`: it stays in the buffer, so it
is part of the current token exactly when a token is in progress. -/
def contentChar (st : TokSt) (c : Nat) : TokSt :=
  if st.in_token then { st with tokens := appendLast st.tokens c, i := st.i + 1 }
  else { st with i := st.i + 1 }

/-- Steps 393-455 of the scanner: the double-quote content skip and the
character dispatch chain. -/
def tokRest (st : TokSt) (c : Nat) : StepRes :=
  if st.in_doublequote ∧ c ≠ 34 then .next (contentChar st c)
  else if c = 59 then .stopLine { st with in_token := false }
  else if c = 40 then
    if st.paren + 1 > 3 then .err (r"too many nested parentheses")
    else .next { st with in_token := false, paren := st.paren + 1, i := st.i + 1 }
  else if c = 41 then
    if st.paren = 0 then .err (r"missing opening parenthesis")
    else .next { st with in_token := false, paren := st.paren - 1, i := st.i + 1 }
  else if c = 34 then
    if st.in_doublequote then
      .next { st with in_token := false, in_doublequote := false, i := st.i + 1 }
    else if st.in_txt then
      .next { st with tokens := st.tokens ++ [[]], in_token := true,
                      in_doublequote := true, i := st.i + 1 }
    else if st.tokens = [] ∨ lowerBytes (st.tokens.getLastD []) ≠ bytes (r"txt") then
      .err (r"improper use of double-quotes")
    else
      .next { st with in_txt := true, tokens := st.tokens ++ [[]], in_token := true,
                      in_doublequote := true, i := st.i + 1 }
  else if c = 32 ∨ c = 9 then
    if st.i = 0 then .next { st with tokens := st.tokens ++ [[32]], i := st.i + 1 }
    else .next { st with in_token := false, i := st.i + 1 }
  else if c = 10 ∨ c = 13 then .next { st with in_token := false, i := st.i + 1 }
  else if st.in_token then .next { st with tokens := appendLast st.tokens c, i := st.i + 1 }
  else if st.tokens.length ≥ 32 then .err (r"too many tokens in RR")
  else .next { st with tokens := st.tokens ++ [[c]], in_token := true,
                       found_nonblank := true, i := st.i + 1 }

/-- One full scanner step (lines 376-455): the entry-length check, the
backslash-escape state transfer of lines 381-391, then `tokRest`. -/
def tokStep (st : TokSt) (c : Nat) : StepRes :=
  if st.i = 8192 then .err (r"entry too long")
  else
    let inq := st.set_in_quote || st.in_quote
    if c = 92 ∧ inq = false then tokRest { st with set_in_quote := true, in_quote := false } c
    else if inq ∧ c ≠ 10 then
      .next (contentChar { st with set_in_quote := false, in_quote := false } c)
    else tokRest { st with set_in_quote := false, in_quote := inq } c

/-- Scan one physical line (the inner for loop of tokenize). -/
def tokLine : TokSt → List Nat → Except String TokSt
  | st, [] => .ok st
  | st, c :: rest =>
    match tokStep st c with
    | .err m => .error m
    | .stopLine st2 => .ok st2
    | .next st2 => tokLine st2 rest

/-- The end-of-line warnings of lines 458-463.  Note that the source only
prints the warnings; it does not reset in_quote or in_doublequote. -/
def endLine (st : TokSt) : TokSt :=
  let w1 := if st.in_quote then
      st.warnings ++ [(r"hanging backslash at end of line, pretending it was terminated")]
    else st.warnings
  let w2 := if st.in_doublequote then
      w1 ++ [(r"open doublequoted string at end of line, pretending it was closed")]
    else w1
  { st with warnings := w2 }

/-- Result of tokenize for one entry: end of input (the fgets-failed return
of -1 at line 372), fatal, or the token array of one complete entry. -/
inductive TokResult where
  | eof
  | fatal (msg : String)
  | ok (tokens : List (List Nat)) (warns : List String)
deriving DecidableEq

/-- Initial scanner state of one tokenize call. -/
def initTok : TokSt := ⟨[], false, false, false, false, false, false, 0, 0, []⟩

/-- The do-while loop of tokenize (lines 370-467): each element of `lines`
is one physical line as fgets returns it (newline included); an exhausted
list is fgets returning NULL. -/
def tokLoop : TokSt → List (List Nat) → TokResult
  | _, [] => .eof
  | st, l :: rest =>
    match tokLine st l with
    | .error m => .fatal m
    | .ok st1 =>
      let st2 := endLine st1
      if st2.paren ≠ 0 then tokLoop st2 rest
      else .ok (if st2.found_nonblank then st2.tokens else []) st2.warnings

/-- tokenize (lines 361-473) for the first entry of the given input. -/
def tokenize (lines : List (List Nat)) : TokResult := tokLoop initTok lines

/-- One part of a parsed $GENERATE template: a literal byte run, or a
placeholder with offset, width and base (the base byte is one of d o x X). -/
inductive GenPart where
  | lit (s : List Nat)
  | ph (off : Int) (width : Nat) (base : Nat)
deriving DecidableEq

/-- The digit-run loops of parse_gen_string and the $GENERATE range parser:
accumulate decimal digits, report whether any digit was found, return the
rest.  (The C accumulators are ints; the inputs exercised here are small.) -/
def takeDigits : List Nat → Nat → Bool → Nat × Bool × List Nat
  | [], acc, f => (acc, f, [])
  | c :: rest, acc, f =>
    if isdigitB c then takeDigits rest (acc * 10 + (c - 48)) true
    else (acc, f, c :: rest)

/-- The curly-brace sub-parser of parse_gen_string (lines 514-556), applied
to the bytes following the opening brace; returns offset, width, base byte
and the rest following the closing brace; `none` is any of its fatal exits. -/
def parseBraces (s : List Nat) : Option (Int × Nat × Nat × List Nat) :=
  let neg : Int := if s.headD 0 = 45 then -1 else 1
  let s1 := if s.headD 0 = 45 then s.drop 1 else s
  match takeDigits s1 0 false with
  | (o, f1, rest1) =>
    if f1 = false then none
    else
      match rest1 with
      | 125 :: r => some (neg * o, 0, 100, r)
      | 44 :: r2 =>
        match takeDigits r2 0 false with
        | (w, f2, rest2) =>
          if f2 = false then none
          else
            match rest2 with
            | 125 :: r => some (neg * o, w, 100, r)
            | 44 :: r3 =>
              match r3 with
              | b :: r4 =>
                if b = 100 ∨ b = 111 ∨ b = 120 ∨ b = 88 then
                  match r4 with
                  | 125 :: r5 => some (neg * o, w, b, r5)
                  | _ => none
                else none
              | [] => none
            | _ => none
      | _ => none

/-- Scanner of parse_gen_string (lines 477-566).  `done` holds the completed
parts, `cur` the literal text accumulated in the currently open part,
`np` the source num_parts (completed parts plus the open one).  The dollar
of a `$$` pair is skipped but both bytes stay in the buffer, hence in the
literal part.  fuel is at least one more than the length of `s`, and every
step consumes at least one byte, so the fuel-0 case is never reached. -/
def pgLoop : Nat → Bool → List GenPart → List Nat → Nat → List Nat → Option (List GenPart)
  | 0, _, _, _, _, _ => none
  | _ + 1, _, done, cur, _, [] => some (done ++ [GenPart.lit cur])
  | fuel + 1, inq, done, cur, np, c :: rest =>
    if inq then pgLoop fuel false done (cur ++ [c]) np rest
    else if c = 92 then pgLoop fuel true done (cur ++ [c]) np rest
    else if c = 36 then
      match rest with
      | 36 :: rest2 => pgLoop fuel false done (cur ++ [36, 36]) np rest2
      | _ =>
        if np ≥ 10 then none
        else
          let done2 := if cur = [] then done else done ++ [GenPart.lit cur]
          let np2 := if cur = [] then np else np + 1
          match rest with
          | 123 :: rest2 =>
            match parseBraces rest2 with
            | none => none
            | some (off, w, b, rest3) =>
              match rest3 with
              | [] => some (done2 ++ [GenPart.ph off w b])
              | _ =>
                if np2 ≥ 10 then none
                else pgLoop fuel false (done2 ++ [GenPart.ph off w b]) [] (np2 + 1) rest3
          | [] => some (done2 ++ [GenPart.ph 0 0 100])
          | _ =>
            if np2 ≥ 10 then none
            else pgLoop fuel false (done2 ++ [GenPart.ph 0 0 100]) [] (np2 + 1) rest
    else pgLoop fuel false done (cur ++ [c]) np rest

/-- parse_gen_string (lines 477-566); `none` is any fatal exit. -/
def parse_gen_string (s : List Nat) : Option (List GenPart) :=
  pgLoop (s.length + 1) false [] [] 1 s

/-- Zero-pad a digit list on the left to width w (printf %0w conversions). -/
def padZeros (w : Nat) (ds : List Nat) : List Nat := List.replicate (w - ds.length) 48 ++ ds

/-- One digit byte in a given base, upper or lower case for hex. -/
def baseDigit (upper : Bool) (d : Nat) : Nat :=
  if d < 10 then 48 + d else (if upper then 55 else 87) + d

/-- Digit bytes of n in the given base (8 or 16), fuel-driven as decAux. -/
def baseDigitsAux (base : Nat) (upper : Bool) : Nat → Nat → List Nat
  | 0, _ => []
  | fuel + 1, n =>
    if n < base then [baseDigit upper n]
    else baseDigitsAux base upper fuel (n / base) ++ [baseDigit upper (n % base)]

/-- Rendering of one placeholder by construct_gen_output (lines 583-585):
snprintf with format %0<width><base> applied to iter + offset.  The o, x, X
conversions read the int argument as unsigned, hence the residue mod 2^32. -/
def renderPh (off : Int) (w : Nat) (b : Nat) (iter : Int) : List Nat :=
  let v := iter + off
  if b = 100 then
    if v < 0 then 45 :: padZeros (w - 1) (decNat (-v).toNat) else padZeros w (decNat v.toNat)
  else
    let u := (v % 4294967296).toNat
    if b = 111 then padZeros w (baseDigitsAux 8 false (u + 1) u)
    else if b = 120 then padZeros w (baseDigitsAux 16 false (u + 1) u)
    else padZeros w (baseDigitsAux 16 true (u + 1) u)

/-- Loop of construct_gen_output (lines 578-591): pos tracks ptr - dest and
advances by the full snprintf return value (the would-be length), and the
fatal of line 587 fires when pos plus that length strictly passes
DOMAIN_STR_LEN = 1021.  snprintf itself stores at most size - 1 content
bytes plus the terminator into the remaining 1021 - pos bytes, so in the
one non-fatal boundary case pos + length = 1021 (not caught by the strict
comparison) the piece is silently stored without its last byte; `acc`
models the bytes actually in the buffer. -/
def cgoLoop : List GenPart → Int → Nat → List Nat → Option (List Nat)
  | [], _, _, acc => some acc
  | p :: rest, iter, pos, acc =>
    let piece := match p with
      | GenPart.lit s => s
      | GenPart.ph off w b => renderPh off w b iter
    if pos + piece.length > 1021 then none
    else
      cgoLoop rest iter (pos + piece.length)
        (acc ++ (if pos + piece.length = 1021 then piece.dropLast else piece))

/-- construct_gen_output (lines 572-592); `none` is its fatal exit. -/
def construct_gen_output (parts : List GenPart) (iter : Int) : Option (List Nat) :=
  cgoLoop parts iter 0 []

/-- The run state handle_entry reads and writes: the current origin, the
default ttl (bit pattern of the unsigned int in main), and the static
owner / prev_owner pair of lines 707-708. -/
structure RState where
  cur_origin : string
  ttl : Nat
  owner : string
  prev : Bool
deriving DecidableEq

/-- The out-of-zone test of lines 719-725: top longer than owner, or
case-insensitive suffix mismatch, or a strictly longer owner whose byte
before the suffix is not a dot. -/
def outOfZone (owner top : string) : Bool :=
  decide (realLen top > realLen owner) ||
  decide (lowerBytes (owner.text.drop (realLen owner - realLen top)) ≠ lowerBytes top.text) ||
  (decide (realLen owner > realLen top) &&
   decide (owner.text.getD (realLen owner - realLen top - 1) 0 ≠ 46))

/-- The ttl / class resolution of lines 744-766, returning the index of the
type token and the record ttl.  Note that both bound checks in this source
region compare local_ttl, which at that point still holds the default ttl,
not the freshly parsed temp_ttl; the model reproduces that. -/
def resolveNext (toks : List (List Nat)) (st : RState) : Option (Nat × Nat) :=
  match str_to_uint (toks.getD 1 []) true with
  | some v =>
    if st.ttl > 2147483646 then none
    else if lowerBytes (toks.getD 2 []) = bytes (r"in") then some (3, v)
    else some (2, v)
  | none =>
    if lowerBytes (toks.getD 1 []) = bytes (r"in") then
      match str_to_uint (toks.getD 2 []) true with
      | some v2 => if st.ttl > 2147483646 then none else some (3, v2)
      | none => some (2, st.ttl)
    else some (1, st.ttl)

/-- The TXT rdata loop of lines 873-879: each token is sanitized and emitted
as a 3-digit octal length prefix followed by the sanitized text. -/
def txtSegs : List (List Nat) → Option (List Nat)
  | [] => some []
  | t :: rest =>
    match sanitize_string t with
    | none => none
    | some s =>
      match txtSegs rest with
      | none => none
      | some tail => some (octEsc s.len ++ s.text ++ tail)

/-- The per-type dispatch of lines 768-912, producing the emitted output
line (without the trailing newline); `none` is any fatal exit. -/
def dispatchRR (toks : List (List Nat)) (st : RState) (next localTtl : Nat) : Option (List Nat) :=
  let ty := lowerBytes (toks.getD next [])
  let arity := toks.length - next - 1
  if ty = bytes (r"soa") then
    if arity = 2 then none
    else if arity ≠ 7 then none
    else do
      let mn ← qualify_domain (toks.getD (next + 1) []) (some st.cur_origin)
      let rn ← qualify_domain (toks.getD (next + 2) []) (some st.cur_origin)
      let serial ← str_to_uint (toks.getD (next + 3) []) false
      let refresh ← str_to_uint (toks.getD (next + 4) []) true
      let retry ← str_to_uint (toks.getD (next + 5) []) true
      let expire ← str_to_uint (toks.getD (next + 6) []) true
      let minimum ← str_to_uint (toks.getD (next + 7) []) true
      pure (bytes (r"Z") ++ st.owner.text ++ [58] ++ mn.text ++ [58] ++ rn.text ++ [58] ++
        decNat serial ++ [58] ++ decNat refresh ++ [58] ++ decNat retry ++ [58] ++
        decNat expire ++ [58] ++ decNat minimum)
  else if ty = bytes (r"ns") then
    if arity ≠ 1 then none
    else do
      let rd ← qualify_domain (toks.getD (next + 1) []) (some st.cur_origin)
      pure (bytes (r"&") ++ st.owner.text ++ [58, 58] ++ rd.text ++ [58] ++ printIntD localTtl)
  else if ty = bytes (r"mx") then
    if arity ≠ 2 then none
    else do
      let pr ← str_to_uint (toks.getD (next + 1) []) false
      if pr > 65535 then none
      else do
        let rd ← qualify_domain (toks.getD (next + 2) []) (some st.cur_origin)
        pure (bytes (r"@") ++ st.owner.text ++ [58, 58] ++ rd.text ++ [58] ++
          printIntD pr ++ [58] ++ printIntD localTtl)
  else if ty = bytes (r"a") then
    if arity ≠ 1 then none
    else do
      let ip ← sanitize_ip (toks.getD (next + 1) [])
      pure (bytes (r"+") ++ st.owner.text ++ [58] ++ ip ++ [58] ++ printIntD localTtl)
  else if ty = bytes (r"cname") then
    if arity ≠ 1 then none
    else do
      let rd ← qualify_domain (toks.getD (next + 1) []) (some st.cur_origin)
      pure (bytes (r"C") ++ st.owner.text ++ [58] ++ rd.text ++ [58] ++ printIntD localTtl)
  else if ty = bytes (r"ptr") then
    if arity ≠ 1 then none
    else do
      let rd ← qualify_domain (toks.getD (next + 1) []) (some st.cur_origin)
      pure ([94] ++ st.owner.text ++ [58] ++ rd.text ++ [58] ++ printIntD localTtl)
  else if ty = bytes (r"txt") then
    if arity < 1 then none
    else do
      let segs ← txtSegs (toks.drop (next + 1))
      pure ([58] ++ st.owner.text ++ [58] ++ bytes (r"16") ++ [58] ++ segs ++ [58] ++
        printIntD localTtl)
  else if ty = bytes (r"srv") then
    if arity ≠ 4 then none
    else do
      let pr ← str_to_uint (toks.getD (next + 1) []) false
      if pr > 65535 then none
      else do
        let wt ← str_to_uint (toks.getD (next + 2) []) false
        if wt > 65535 then none
        else do
          let pt ← str_to_uint (toks.getD (next + 3) []) false
          if pt > 65535 then none
          else do
            let rd ← qualify_domain (toks.getD (next + 4) []) (some st.cur_origin)
            pure ([58] ++ st.owner.text ++ [58] ++ bytes (r"33") ++ [58] ++
              octEsc (pr / 256) ++ octEsc (pr % 256) ++ octEsc (wt / 256) ++ octEsc (wt % 256) ++
              octEsc (pt / 256) ++ octEsc (pt % 256) ++ octEsc rd.len ++ rd.text ++ [58] ++
              printIntD localTtl)
  else none

/-- The resource-record branch of handle_entry (lines 704-913).  The result
is (new state, emitted lines, return value); return value 1 is the
out-of-zone warning path, `none` is any fatal exit.  The owner static is
overwritten by qualify_domain before the zone test runs. -/
def handleRecord (toks : List (List Nat)) (st : RState) (top : string) :
    Option (RState × List (List Nat) × Nat) :=
  if toks.length < 3 then none
  else if toks.getD 0 [] = [32] then
    if st.prev = false then none
    else
      match resolveNext toks st with
      | none => none
      | some (next, localTtl) =>
        match dispatchRR toks st next localTtl with
        | none => none
        | some line => some (st, [line], 0)
  else
    match qualify_domain (toks.getD 0 []) (some st.cur_origin) with
    | none => none
    | some q =>
      if outOfZone q top then some ({ st with owner := q }, [], 1)
      else
        match resolveNext toks { st with owner := q, prev := true } with
        | none => none
        | some (next, localTtl) =>
          match dispatchRR toks { st with owner := q, prev := true } next localTtl with
          | none => none
          | some line => some ({ st with owner := q, prev := true }, [line], 0)

/-- The recursive handle_entry call made for each generated record (line
694).  The generated entry always has exactly 3 tokens, so every
dollar-prefixed first token is fatal in the source (each directive branch
rejects the 3-token count, and unknown dollar directives are fatal);
non-dollar tokens take the record branch. -/
def genDispatch (toks : List (List Nat)) (st : RState) (top : string) :
    Option (RState × List (List Nat) × Nat) :=
  if (toks.getD 0 []).headD 0 = 36 then none
  else handleRecord toks st top

/-- The range parser of the $GENERATE branch (lines 641-673):
start-stop with an optional nonzero /step. -/
def parseRange (s : List Nat) : Option (Nat × Nat × Nat) :=
  match takeDigits s 0 false with
  | (a, f1, rest1) =>
    if f1 = false then none
    else
      match rest1 with
      | 45 :: r2 =>
        match takeDigits r2 0 false with
        | (b, f2, rest2) =>
          if f2 = false then none
          else
            match rest2 with
            | [] => some (a, b, 1)
            | 47 :: r4 =>
              match takeDigits r4 0 false with
              | (c, f3, rest3) =>
                if f3 = false ∨ rest3 ≠ [] ∨ c = 0 then none else some (a, b, c)
            | _ => none
      | _ => none

/-- The iteration loop of the $GENERATE branch (lines 684-696): construct
both templates for each iterator value and feed the synthetic record back
through the record dispatch, carrying the state along; the recursive return
value is discarded in the source, so only fatal (none) stops the loop. -/
def genFold (lhs rhs : List GenPart) (ty : List Nat) (top : string) :
    List Nat → RState → List (List Nat) → Option (RState × List (List Nat) × Nat)
  | [], st, acc => some (st, acc, 0)
  | i :: is, st, acc =>
    match construct_gen_output lhs (Int.ofNat i), construct_gen_output rhs (Int.ofNat i) with
    | some l, some r =>
      match genDispatch [l, ty, r] st top with
      | none => none
      | some (st2, lines, _) => genFold lhs rhs ty top is st2 (acc ++ lines)
    | _, _ => none

/-- The $GENERATE branch of handle_entry (lines 619-696). -/
def handleGenerate (toks : List (List Nat)) (st : RState) (top : string) :
    Option (RState × List (List Nat) × Nat) :=
  if toks.length ≠ 5 then none
  else if lowerBytes (toks.getD 3 []) ≠ bytes (r"ptr") ∧
          lowerBytes (toks.getD 3 []) ≠ bytes (r"cname") ∧
          lowerBytes (toks.getD 3 []) ≠ bytes (r"a") ∧
          lowerBytes (toks.getD 3 []) ≠ bytes (r"ns") then none
  else
    match parseRange (toks.getD 1 []) with
    | none => none
    | some (start, stop, step) =>
      match parse_gen_string (toks.getD 2 []), parse_gen_string (toks.getD 4 []) with
      | some lhs, some rhs =>
        let count := if start > stop then 0 else (stop - start) / step + 1
        genFold lhs rhs (toks.getD 3 []) top ((List.range count).map (fun k => start + k * step)) st []
      | _, _ => none

/-- A byte the sanitizer copies verbatim: printable and neither colon nor
backslash.  Every byte of a sanitized output is either such a byte or part
of an octal escape. -/
def plainByte (b : Nat) : Bool := isprintB b && decide (b ≠ 58) && decide (b ≠ 92)

/-- Value of a big-endian decimal digit list (no wraparound). -/
def bigVal (ds : List Nat) : Nat := ds.foldl (fun a d => a * 10 + d) 0

/-- Text of a sequence of digits-unit duration runs: each run is its digit
bytes followed by its unit byte. -/
def renderRuns (rs : List (List Nat × Nat)) : List Nat :=
  (rs.map (fun r => r.1.map (fun d => d + 48) ++ [r.2])).flatten

/-- The mathematical total of a sequence of duration runs. -/
def runsTotal (rs : List (List Nat × Nat)) : Nat :=
  (rs.map (fun r => bigVal r.1 * (unitVal r.2).getD 0)).sum

/-- handle_entry (lines 595-916).  The ttl parameter of the source is an
int pointer into the unsigned ttl of main, so the $TTL bound check of line
616 is a signed comparison while the record-path checks are unsigned; the
model keeps the 32-bit residue in `RState.ttl` and applies `toSigned` where
the source compares as int. -/
def handle_entry (toks : List (List Nat)) (st : RState) (top : string) :
    Option (RState × List (List Nat) × Nat) :=
  if toks.length = 0 then some (st, [], 0)
  else if lowerBytes (toks.getD 0 []) = bytes (r"$origin") then
    if toks.length ≠ 2 then none
    else
      match qualify_domain (toks.getD 1 []) (some st.cur_origin) with
      | none => none
      | some q => some ({ st with cur_origin := q }, [], 0)
  else if lowerBytes (toks.getD 0 []) = bytes (r"$ttl") then
    if toks.length ≠ 2 then none
    else
      match str_to_uint (toks.getD 1 []) true with
      | none => none
      | some v => if toSigned v > 2147483646 then none else some ({ st with ttl := v }, [], 0)
  else if lowerBytes (toks.getD 0 []) = bytes (r"$generate") then handleGenerate toks st top
  else if lowerBytes (toks.getD 0 []) = bytes (r"$include") then none
  else if (toks.getD 0 []).headD 0 = 36 then none
  else handleRecord toks st top

/-- Helper: a byte list whose head is not a dollar sign cannot lowercase to a
list headed by a dollar sign (tolower only moves 65-90 to 97-122). -/
theorem lowerBytes_ne_dollar (s : List Nat) (h : s.headD 0 ≠ 36) (t : List Nat) :
    lowerBytes s ≠ 36 :: t := by
  cases s with
  | nil => simp [lowerBytes]
  | cons c cs =>
    simp only [lowerBytes, List.map_cons, ne_eq, List.cons.injEq, not_and]
    intro hc
    simp only [List.headD_cons] at h
    unfold toLowerB at hc
    split at hc
    · omega
    · exact absurd hc h

/-- C1: with the parenthesis nesting count still positive when input runs
out, tokenize returns the normal end-of-input signal (the early return of
line 372) instead of reaching the fatal of lines 469-470: the claimed fatal
is dead code. -/
theorem c1_eof_with_open_paren_is_not_fatal :
    tokenize [bytes (r"foo (") ++ [10]] = TokResult.eof := by decide

/-- C3: a record whose explicit TTL token parses to 2147483647, which
exceeds 2147483646, is not rejected: the bound check of line 747 tests the
default ttl instead of the parsed value, so the record is emitted with the
oversized TTL. -/
theorem c3_oversized_record_ttl_is_emitted :
    str_to_uint (bytes (r"2147483647")) true = some 2147483647 ∧
    handle_entry [bytes (r"foo"), bytes (r"2147483647"), bytes (r"A"), bytes (r"1.2.3.4")]
        ⟨⟨bytes (r"zone."), 5⟩, 86400, ⟨[], 0⟩, false⟩ ⟨bytes (r"zone."), 5⟩ =
      some (⟨⟨bytes (r"zone."), 5⟩, 86400, ⟨bytes (r"foo.zone."), 9⟩, true⟩,
        [bytes (r"+foo.zone.:1.2.3.4:2147483647")], 0) := by decide

/-- C10: when a double-quoted span is still open at the end of a physical
line of a parenthesis-continued entry, the tokenizer prints the warning and
is not fatal, but it does not actually close the span: the open-quote state
persists, and the next physical line's text (with the line break) is glued
into the same quoted token. -/
theorem c10_open_quote_persists_into_next_line :
    tokenize [bytes (r"x TXT ( ") ++ [34] ++ bytes (r"ab") ++ [10],
              bytes (r"cd") ++ [34] ++ bytes (r" )") ++ [10]] =
      TokResult.ok [bytes (r"x"), bytes (r"TXT"), bytes (r"ab") ++ [10] ++ bytes (r"cd")]
        [(r"open doublequoted string at end of line, pretending it was closed")] := by decide

/-- C2 counterexample: sanitizing the colon yields the octal escape 072,
but sanitizing that output re-reads the escape as decimal 72 and yields the
letter H, so sanitize(sanitize(x).encoded).encoded differs from
sanitize(x).encoded at x = colon. -/
theorem c2_counterexample :
    sanitize_string [58] = some ⟨[92, 48, 55, 50], 1⟩ ∧
    sanitize_string [92, 48, 55, 50] = some ⟨[72], 1⟩ ∧
    ([72] : List Nat) ≠ [92, 48, 55, 50] := by decide

/-- C5 counterexample: an opening double quote succeeds in an entry whose
first token is foo, not TXT (the source compares the most recent token,
token[num_tokens-1], not the first). -/
theorem c5_counterexample :
    tokenize [bytes (r"foo TXT ") ++ [34] ++ bytes (r"hi") ++ [34] ++ [10]] =
      TokResult.ok [bytes (r"foo"), bytes (r"TXT"), bytes (r"hi")] [] ∧
    lowerBytes (bytes (r"foo")) ≠ bytes (r"txt") := by decide

/-- C5 amended: outside any quoted or escaped state, an opening double
quote is fatal exactly when no quoted span has yet been opened in this
entry and the most recently started token (token[num_tokens-1]) is absent
or differs case-insensitively from TXT. -/
theorem c5_open_quote_rule (st : TokSt) (h1 : st.in_doublequote = false)
    (h2 : st.in_quote = false) (h3 : st.set_in_quote = false) (h4 : st.i ≠ 8192) :
    tokStep st 34 = StepRes.err (r"improper use of double-quotes") ↔
      st.in_txt = false ∧
        (st.tokens = [] ∨ lowerBytes (st.tokens.getLastD []) ≠ bytes (r"txt")) := by
  unfold tokStep tokRest
  rw [if_neg h4]
  simp only [h1, h2, h3, Bool.or_false]
  by_cases hit : st.in_txt <;>
    by_cases hp : (st.tokens = [] ∨ lowerBytes (st.tokens.getLastD []) ≠ bytes (r"txt")) <;>
      simp [hit, hp] <;> tauto

/-- C5 witness: at a state whose only token so far is the byte a, an
opening double quote is fatal. -/
theorem c5_open_quote_rule_witness :
    tokStep ⟨[[97]], false, true, false, false, false, false, 0, 5, []⟩ 34 =
      StepRes.err (r"improper use of double-quotes") :=
  (c5_open_quote_rule ⟨[[97]], false, true, false, false, false, false, 0, 5, []⟩
    rfl rfl rfl (by decide)).mpr (by decide)

/-- C4 counterexample: an out-of-zone explicit owner is skipped with a
warning (return value 1, no output, not fatal), but the previous-owner
state is not left unchanged: the stored owner string is overwritten with
the rejected record's qualified owner before the zone test runs. -/
theorem c4_counterexample :
    handle_entry [bytes (r"b.other."), bytes (r"A"), bytes (r"1.2.3.4")]
        ⟨⟨bytes (r"zone."), 5⟩, 86400, ⟨bytes (r"a.zone."), 7⟩, true⟩ ⟨bytes (r"zone."), 5⟩ =
      some (⟨⟨bytes (r"zone."), 5⟩, 86400, ⟨bytes (r"b.other."), 8⟩, true⟩, [], 1) ∧
    (⟨bytes (r"b.other."), 8⟩ : string) ≠ ⟨bytes (r"a.zone."), 7⟩ := by decide

/-- C4 amended: an explicit owner that qualifies but fails the zone test
produces the warning return (value 1), emits nothing, is not fatal, and
leaves ttl, current origin and the previous-owner established flag
unchanged, while the stored owner name is overwritten with the rejected
qualified owner. -/
theorem c4_out_of_zone_warning (toks : List (List Nat)) (st : RState) (top q : string)
    (hlen : 3 ≤ toks.length) (hblank : toks.getD 0 [] ≠ [32])
    (hdollar : (toks.getD 0 []).headD 0 ≠ 36)
    (hq : qualify_domain (toks.getD 0 []) (some st.cur_origin) = some q)
    (hz : outOfZone q top = true) :
    handle_entry toks st top = some ({ st with owner := q }, [], 1) := by
  have hne : toks.length ≠ 0 := by omega
  have e1 : lowerBytes (toks.getD 0 []) ≠ bytes (r"$origin") := by
    have : bytes (r"$origin") = 36 :: bytes (r"origin") := by decide
    rw [this]; exact lowerBytes_ne_dollar _ hdollar _
  have e2 : lowerBytes (toks.getD 0 []) ≠ bytes (r"$ttl") := by
    have : bytes (r"$ttl") = 36 :: bytes (r"ttl") := by decide
    rw [this]; exact lowerBytes_ne_dollar _ hdollar _
  have e3 : lowerBytes (toks.getD 0 []) ≠ bytes (r"$generate") := by
    have : bytes (r"$generate") = 36 :: bytes (r"generate") := by decide
    rw [this]; exact lowerBytes_ne_dollar _ hdollar _
  have e4 : lowerBytes (toks.getD 0 []) ≠ bytes (r"$include") := by
    have : bytes (r"$include") = 36 :: bytes (r"include") := by decide
    rw [this]; exact lowerBytes_ne_dollar _ hdollar _
  unfold handle_entry
  rw [if_neg hne, if_neg e1, if_neg e2, if_neg e3, if_neg e4, if_neg hdollar]
  unfold handleRecord
  rw [if_neg (by omega), if_neg hblank, hq]
  dsimp only
  rw [if_pos hz]

/-- C4 witness: the amended statement at a concrete out-of-zone record. -/
theorem c4_out_of_zone_warning_witness :
    handle_entry [bytes (r"b.other."), bytes (r"A"), bytes (r"1.2.3.4")]
        ⟨⟨bytes (r"zone."), 5⟩, 86400, ⟨bytes (r"a.zone."), 7⟩, true⟩ ⟨bytes (r"zone."), 5⟩ =
      some (⟨⟨bytes (r"zone."), 5⟩, 86400, ⟨bytes (r"b.other."), 8⟩, true⟩, [], 1) :=
  c4_out_of_zone_warning [bytes (r"b.other."), bytes (r"A"), bytes (r"1.2.3.4")]
    ⟨⟨bytes (r"zone."), 5⟩, 86400, ⟨bytes (r"a.zone."), 7⟩, true⟩ ⟨bytes (r"zone."), 5⟩
    ⟨bytes (r"b.other."), 8⟩ (by decide) (by decide) (by decide) (by decide) (by decide)

/-- C9: a record entry whose first token is the blank-owner sentinel (with
a previous owner established) is handled without any zone-membership test:
the result does not depend on the top-level origin at all, and concretely a
stored owner lying outside the top-level origin is emitted as is. -/
theorem c9_blank_owner_skips_zone_check :
    (∀ (toks : List (List Nat)) (st : RState) (top1 top2 : string),
      toks.getD 0 [] = [32] → st.prev = true →
        handle_entry toks st top1 = handle_entry toks st top2) ∧
    outOfZone ⟨bytes (r"b.other."), 8⟩ ⟨bytes (r"zone."), 5⟩ = true ∧
    handle_entry [[32], bytes (r"A"), bytes (r"1.2.3.4")]
        ⟨⟨bytes (r"zone."), 5⟩, 86400, ⟨bytes (r"b.other."), 8⟩, true⟩ ⟨bytes (r"zone."), 5⟩ =
      some (⟨⟨bytes (r"zone."), 5⟩, 86400, ⟨bytes (r"b.other."), 8⟩, true⟩,
        [bytes (r"+b.other.:1.2.3.4:86400")], 0) := by
  refine ⟨?_, by decide, by decide⟩
  intro toks st top1 top2 h0 hprev
  have hne : toks.length ≠ 0 := by
    intro h
    rw [List.length_eq_zero] at h
    subst h
    simp [List.getD] at h0
  have hd : (toks.getD 0 []).headD 0 ≠ 36 := by rw [h0]; decide
  have e1 : lowerBytes (toks.getD 0 []) ≠ bytes (r"$origin") := by rw [h0]; decide
  have e2 : lowerBytes (toks.getD 0 []) ≠ bytes (r"$ttl") := by rw [h0]; decide
  have e3 : lowerBytes (toks.getD 0 []) ≠ bytes (r"$generate") := by rw [h0]; decide
  have e4 : lowerBytes (toks.getD 0 []) ≠ bytes (r"$include") := by rw [h0]; decide
  by_cases hl3 : toks.length < 3
  · have key : ∀ top : string, handle_entry toks st top = none := by
      intro top
      unfold handle_entry
      rw [if_neg hne, if_neg e1, if_neg e2, if_neg e3, if_neg e4, if_neg hd]
      unfold handleRecord
      rw [if_pos hl3]
    rw [key top1, key top2]
  · have key : ∀ top : string, handle_entry toks st top =
        (match resolveNext toks st with
         | none => none
         | some (next, localTtl) =>
           match dispatchRR toks st next localTtl with
           | none => none
           | some line => some (st, [line], 0)) := by
      intro top
      unfold handle_entry
      rw [if_neg hne, if_neg e1, if_neg e2, if_neg e3, if_neg e4, if_neg hd]
      unfold handleRecord
      rw [if_neg hl3, if_pos h0, if_neg (by simp [hprev])]
    rw [key top1, key top2]

/-- C9 witness: the independence statement applied at a concrete blank
entry, stored out-of-zone owner and two different top origins. -/
theorem c9_blank_owner_skips_zone_check_witness :
    handle_entry [[32], bytes (r"A"), bytes (r"1.2.3.4")]
        ⟨⟨bytes (r"zone."), 5⟩, 86400, ⟨bytes (r"b.other."), 8⟩, true⟩ ⟨bytes (r"zone."), 5⟩ =
      handle_entry [[32], bytes (r"A"), bytes (r"1.2.3.4")]
        ⟨⟨bytes (r"zone."), 5⟩, 86400, ⟨bytes (r"b.other."), 8⟩, true⟩ ⟨bytes (r"aa."), 3⟩ :=
  c9_blank_owner_skips_zone_check.1 [[32], bytes (r"A"), bytes (r"1.2.3.4")]
    ⟨⟨bytes (r"zone."), 5⟩, 86400, ⟨bytes (r"b.other."), 8⟩, true⟩
    ⟨bytes (r"zone."), 5⟩ ⟨bytes (r"aa."), 3⟩ (by decide) rfl

/-- Helper: plainByte unpacked. -/
theorem plainByte_elim (c : Nat) (h : plainByte c = true) :
    isprintB c = true ∧ c ≠ 58 ∧ c ≠ 92 := by
  simp only [plainByte, Bool.and_eq_true, decide_eq_true_eq] at h
  exact ⟨h.1.1, h.1.2, h.2⟩

/-- Helper: plainByte from its parts. -/
theorem plainByte_intro (c : Nat) (h1 : isprintB c = true) (h2 : c ≠ 58) (h3 : c ≠ 92) :
    plainByte c = true := by
  simp [plainByte, h1, h2, h3]

/-- Helper: every byte of an octal escape is the backslash or a digit byte,
and digit bytes are plain. -/
theorem octEsc_mem (n : Nat) (hn : n ≤ 255) :
    ∀ b ∈ octEsc n, b = 92 ∨ plainByte b = true := by
  intro b hb
  simp only [octEsc, List.mem_cons, List.not_mem_nil, or_false] at hb
  rcases hb with h | h | h | h
  · left; exact h
  all_goals
    right
    subst h
    refine plainByte_intro _ ?_ (by omega) (by omega)
    simp only [isprintB, Bool.and_eq_true, decide_eq_true_eq]
    omega

/-- Helper: the backslash is in every octal escape. -/
theorem octEsc_has_backslash (n : Nat) : 92 ∈ octEsc n := by
  simp [octEsc]


/-- Shape of every successful sanitize loop run: the output extends the
accumulator by a tail whose bytes are each either a backslash (escape
introducer) or a plain copied byte; the final logical length stays at or
below 255; and if the tail is escape-free it has exactly one byte per
logical-length step. -/
theorem sanLoop_shape (src acc : List Nat) (len : Nat) (out : string)
    (hsrc : ∀ b ∈ src, b < 128) (hlen : len ≤ 255)
    (h : sanLoop src acc len = some out) :
    ∃ t, out.text = acc ++ t ∧ out.len ≤ 255 ∧ len ≤ out.len ∧
      (∀ b ∈ t, b = 92 ∨ plainByte b = true) ∧
      (92 ∉ t → t.length = out.len - len) := by
  induction src, acc, len using sanLoop.induct generalizing out
  -- case 1: source exhausted
  · rename_i acc len
    simp only [sanLoop, Option.some.injEq] at h
    refine ⟨[], by simp [← h], by rw [← h]; exact hlen, by rw [← h], by simp, by simp [← h]⟩
  -- case 2: len = 255 with a byte remaining: failure
  · rename_i c rest acc
    rw [sanLoop.eq_def] at h
    simp at h
  -- case 3: plain printable byte copied verbatim
  · rename_i c rest acc len h255 hpr ih
    rw [sanLoop.eq_def] at h
    simp [h255, hpr] at h
    obtain ⟨t, ht, h1, h2, h3, h4⟩ :=
      ih _ (fun b hb => hsrc b (List.mem_cons_of_mem _ hb)) (by omega) h
    refine ⟨c :: t, by rw [ht]; simp, h1, by omega, ?_, ?_⟩
    · intro b hb
      rcases List.mem_cons.mp hb with rfl | hb
      · exact Or.inr (plainByte_intro _ hpr.1 hpr.2.2 hpr.2.1)
      · exact h3 b hb
    · intro hnb
      have := h4 (fun hc => hnb (List.mem_cons_of_mem _ hc))
      simp only [List.length_cons]
      omega
  -- case 4: trailing backslash: failure
  · rename_i acc len h255 hnp
    rw [sanLoop.eq_def] at h
    simp [h255] at h
  -- case 5: backslash before a non-digit byte that must be escaped
  · rename_i acc len h255 d rest2 hdig hspec hnp ih
    rw [sanLoop.eq_def] at h
    simp [h255, hdig, hspec] at h
    have hd : d < 128 := hsrc d (by simp)
    obtain ⟨t, ht, h1, h2, h3, h4⟩ :=
      ih _ (fun b hb => hsrc b (by simp [hb])) (by omega) h
    refine ⟨octEsc d ++ t, by rw [ht]; simp, h1, by omega, ?_, ?_⟩
    · intro b hb
      rcases List.mem_append.mp hb with hb | hb
      · exact octEsc_mem d (by omega) b hb
      · exact h3 b hb
    · intro hnb
      exact absurd (List.mem_append.mpr (Or.inl (octEsc_has_backslash d))) hnb
  -- case 6: backslash before a non-digit printable byte copied verbatim
  · rename_i acc len h255 d rest2 hdig hspec hnp ih
    rw [sanLoop.eq_def] at h
    simp [h255, hdig, hspec] at h
    push_neg at hspec
    obtain ⟨t, ht, h1, h2, h3, h4⟩ :=
      ih _ (fun b hb => hsrc b (by simp [hb])) (by omega) h
    refine ⟨d :: t, by rw [ht]; simp, h1, by omega, ?_, ?_⟩
    · intro b hb
      rcases List.mem_cons.mp hb with rfl | hb
      · exact Or.inr (plainByte_intro _ (Bool.ne_false_iff.mp hspec.2.2.2) hspec.1 hspec.2.1)
      · exact h3 b hb
    · intro hnb
      have := h4 (fun hc => hnb (List.mem_cons_of_mem _ hc))
      simp only [List.length_cons]
      omega
  -- case 7: escaped decimal above 255: failure
  · rename_i acc len h255 d hdig d2 d3 rest3 hdig23 hbig hnp
    rw [sanLoop.eq_def] at h
    simp [h255, hdig, hdig23, hbig] at h
  -- case 8: escaped decimal printable and unremarkable: copied as one byte
  · rename_i acc len h255 d hdig d2 d3 rest3 hdig23 hbig hprn hnp ih
    rw [sanLoop.eq_def] at h
    simp [h255, hdig, hdig23, hbig, hprn] at h
    obtain ⟨t, ht, h1, h2, h3, h4⟩ :=
      ih _ (fun b hb => hsrc b (by simp [hb])) (by omega) h
    refine ⟨((d - 48) * 100 + (d2 - 48) * 10 + (d3 - 48)) :: t, by rw [ht]; simp, h1, by omega, ?_, ?_⟩
    · intro b hb
      rcases List.mem_cons.mp hb with rfl | hb
      · exact Or.inr (plainByte_intro _ hprn.1 hprn.2.1 hprn.2.2.2)
      · exact h3 b hb
    · intro hnb
      have := h4 (fun hc => hnb (List.mem_cons_of_mem _ hc))
      simp only [List.length_cons]
      omega
  -- case 9: escaped decimal re-escaped as an octal escape
  · rename_i acc len h255 d hdig d2 d3 rest3 hdig23 hbig hprn hnp ih
    rw [sanLoop.eq_def] at h
    simp [h255, hdig, hdig23, hbig, hprn] at h
    obtain ⟨t, ht, h1, h2, h3, h4⟩ :=
      ih _ (fun b hb => hsrc b (by simp [hb])) (by omega) h
    refine ⟨octEsc ((d - 48) * 100 + (d2 - 48) * 10 + (d3 - 48)) ++ t,
      by rw [ht]; simp, h1, by omega, ?_, ?_⟩
    · intro b hb
      rcases List.mem_append.mp hb with hb | hb
      · exact octEsc_mem _ (by omega) b hb
      · exact h3 b hb
    · intro hnb
      exact absurd (List.mem_append.mpr (Or.inl (octEsc_has_backslash _))) hnb
  -- case 10: malformed escaped decimal (non-digit second or third byte)
  · rename_i acc len h255 d hdig d2 d3 rest3 hdig23 hnp
    rw [sanLoop.eq_def] at h
    simp [h255, hdig, hdig23] at h
  -- case 11: malformed escaped decimal (fewer than three bytes)
  · rename_i acc len h255 d rest2 hdig hshape hnp
    rw [sanLoop.eq_def] at h
    simp [h255, hdig] at h
  -- case 12: non-printable byte or colon escaped as octal
  · rename_i c rest acc len h255 hnp hc92 ih
    rw [sanLoop.eq_def] at h
    simp [h255, hc92] at h
    rw [if_neg (show ¬(isprintB c = true ∧ ¬c = 58) from fun hx => hnp ⟨hx.1, hc92, hx.2⟩)] at h
    have hc : c < 128 := hsrc c (by simp)
    obtain ⟨t, ht, h1, h2, h3, h4⟩ :=
      ih _ (fun b hb => hsrc b (by simp [hb])) (by omega) h
    refine ⟨octEsc c ++ t, by rw [ht]; simp, h1, by omega, ?_, ?_⟩
    · intro b hb
      rcases List.mem_append.mp hb with hb | hb
      · exact octEsc_mem c (by omega) b hb
      · exact h3 b hb
    · intro hnb
      exact absurd (List.mem_append.mpr (Or.inl (octEsc_has_backslash c))) hnb

/-- On a list of plain bytes that fits the length budget, the sanitize loop
is the identity: every byte is copied verbatim. -/
theorem sanLoop_plain_id (cs : List Nat) : ∀ acc : List Nat, ∀ len : Nat,
    (∀ b ∈ cs, plainByte b = true) → len + cs.length ≤ 255 →
    sanLoop cs acc len = some ⟨acc ++ cs, len + cs.length⟩ := by
  induction cs with
  | nil => intro acc len _ _; simp [sanLoop]
  | cons c cs ih =>
    intro acc len hmem hfit
    obtain ⟨h1, h2, h3⟩ := plainByte_elim c (hmem c (by simp))
    rw [sanLoop.eq_def]
    dsimp only
    simp only [List.length_cons] at hfit
    rw [if_neg (show ¬len = 255 by omega), if_pos ⟨h1, h3, h2⟩]
    rw [ih (acc ++ [c]) (len + 1) (fun b hb => hmem b (List.mem_cons_of_mem _ hb)) (by omega)]
    simp only [List.append_assoc, List.singleton_append, List.length_cons, Option.some.injEq]
    have : len + 1 + cs.length = len + (cs.length + 1) := by omega
    rw [this]

/-- C2 amended: sanitizing is idempotent on every 7-bit input whose encoded
output is escape-free (contains no backslash): re-sanitizing the output
reproduces it exactly, length included.  (The unamended claim fails:
see the counterexample at the colon byte.) -/
theorem c2_idempotent_on_escape_free (x : List Nat) (out : string)
    (hx : ∀ b ∈ x, b < 128) (h : sanitize_string x = some out)
    (hnb : 92 ∉ out.text) : sanitize_string out.text = some out := by
  obtain ⟨t, ht, h255, _, hmem, hcount⟩ := sanLoop_shape x [] 0 out hx (by omega) h
  simp only [List.nil_append] at ht
  have hmem2 : ∀ b ∈ out.text, plainByte b = true := by
    intro b hb
    rcases hmem b (ht ▸ hb) with rfl | hp
    · exact absurd hb hnb
    · exact hp
  have hlen2 : out.text.length = out.len := by
    have := hcount (by rw [← ht]; exact hnb)
    rw [ht]
    omega
  have hid := sanLoop_plain_id out.text [] 0 hmem2 (by omega)
  unfold sanitize_string
  rw [hid]
  cases out with
  | mk text len =>
    simp only [List.nil_append, Nat.zero_add, Option.some.injEq, string.mk.injEq, true_and]
    simpa using hlen2

/-- C2 witness: the amended idempotence applied at a concrete escape-free
input. -/
theorem c2_idempotent_on_escape_free_witness :
    sanitize_string (bytes (r"abc")) = some ⟨bytes (r"abc"), 3⟩ :=
  c2_idempotent_on_escape_free (bytes (r"abc")) ⟨bytes (r"abc"), 3⟩
    (by decide) (by decide) (by decide)

/-- C6 counterexample: the template a$$b parses to a single literal part
that still contains both dollar bytes, and expansion reproduces it with two
dollar characters, not one. -/
theorem c6_counterexample :
    parse_gen_string (bytes (r"a$$b")) = some [GenPart.lit (bytes (r"a$$b"))] ∧
    construct_gen_output [GenPart.lit (bytes (r"a$$b"))] 7 = some (bytes (r"a$$b")) ∧
    (bytes (r"a$$b")).count 36 = 2 := by decide

/-- Scanning bytes that are neither dollar nor backslash only moves them
into the current literal part. -/
theorem pgLoop_plain_scan (cs : List Nat) : ∀ fuel : Nat, ∀ done : List GenPart,
    ∀ cur : List Nat, ∀ np : Nat, ∀ rest : List Nat,
    (∀ b ∈ cs, b ≠ 36 ∧ b ≠ 92) →
    pgLoop (cs.length + fuel) false done cur np (cs ++ rest) =
      pgLoop fuel false done (cur ++ cs) np rest := by
  induction cs with
  | nil => intro fuel done cur np rest _; simp
  | cons c cs ih =>
    intro fuel done cur np rest hcs
    obtain ⟨h36, h92⟩ := hcs c (by simp)
    have hL : (c :: cs).length + fuel = (cs.length + fuel) + 1 := by
      simp [Nat.add_right_comm]
    rw [hL, List.cons_append, pgLoop.eq_def]
    dsimp only
    rw [if_neg (by simp), if_neg h92, if_neg h36]
    rw [ih fuel done (cur ++ [c]) np rest (fun b hb => hcs b (List.mem_cons_of_mem _ hb))]
    rw [List.append_assoc, List.singleton_append]

/-- C6 amended: a $$ pair anywhere in a template whose other bytes are
ordinary (no further dollar, no backslash) suppresses placeholder parsing
but keeps both dollar bytes: the template parses to one literal part
containing the $$ verbatim, and every iteration's expansion reproduces the
template text unchanged, provided the rendered length stays at or below
1020 bytes (at exactly 1021 snprintf silently drops the final byte). -/
theorem c6_dollar_dollar_literal (pre post : List Nat) (iter : Int)
    (hpre : ∀ b ∈ pre, b ≠ 36 ∧ b ≠ 92) (hpost : ∀ b ∈ post, b ≠ 36 ∧ b ≠ 92)
    (hlen : pre.length + post.length + 2 ≤ 1020) :
    parse_gen_string (pre ++ [36, 36] ++ post) = some [GenPart.lit (pre ++ [36, 36] ++ post)] ∧
    construct_gen_output [GenPart.lit (pre ++ [36, 36] ++ post)] iter =
      some (pre ++ [36, 36] ++ post) := by
  constructor
  · unfold parse_gen_string
    have hL : (pre ++ [36, 36] ++ post).length + 1 = pre.length + (post.length + 3) := by
      simp only [List.length_append, List.length_cons, List.length_nil]
      omega
    rw [hL, List.append_assoc, pgLoop_plain_scan pre (post.length + 3) [] [] 1 ([36, 36] ++ post) hpre,
      List.nil_append]
    have step : pgLoop ((post.length + 2) + 1) false [] pre 1 (36 :: 36 :: post) =
        pgLoop (post.length + 2) false [] (pre ++ [36, 36]) 1 post := rfl
    rw [show post.length + 3 = (post.length + 2) + 1 by omega] at *
    rw [show ([36, 36] : List Nat) ++ post = 36 :: 36 :: post from rfl, step]
    have scan2 := pgLoop_plain_scan post 2 [] (pre ++ [36, 36]) 1 [] hpost
    rw [List.append_nil] at scan2
    rw [scan2]
    have fin : pgLoop 2 false [] ((pre ++ [36, 36]) ++ post) 1 [] =
        some [GenPart.lit ((pre ++ [36, 36]) ++ post)] := rfl
    rw [fin, List.append_assoc]
    rfl
  · have hfit : ¬ 0 + (pre ++ [36, 36] ++ post).length > 1021 := by
      simp only [List.length_append, List.length_cons, List.length_nil]
      omega
    have hnb : ¬ 0 + (pre ++ [36, 36] ++ post).length = 1021 := by
      simp only [List.length_append, List.length_cons, List.length_nil]
      omega
    simp only [construct_gen_output, cgoLoop]
    rw [if_neg hfit, if_neg hnb]
    simp [cgoLoop]

/-- C6 witness: the amended statement applied at the concrete template
a$$b and iterator 7. -/
theorem c6_dollar_dollar_literal_witness :
    parse_gen_string (bytes (r"a") ++ [36, 36] ++ bytes (r"b")) =
      some [GenPart.lit (bytes (r"a") ++ [36, 36] ++ bytes (r"b"))] ∧
    construct_gen_output [GenPart.lit (bytes (r"a") ++ [36, 36] ++ bytes (r"b"))] 7 =
      some (bytes (r"a") ++ [36, 36] ++ bytes (r"b")) :=
  c6_dollar_dollar_literal (bytes (r"a")) (bytes (r"b")) 7 (by decide) (by decide) (by decide)

/-- Helper: a left factor may be reduced mod M under a sum taken mod M. -/
theorem mod_shift_mul_add (a b c M : Nat) : ((a % M) * b + c) % M = (a * b + c) % M :=
  Nat.ModEq.add_right c (Nat.ModEq.mul_right b (Nat.mod_modEq a M))

/-- Helper: the exact decimal fold in terms of the digit-list value. -/
theorem foldl_decimal (ds : List Nat) : ∀ a : Nat,
    ds.foldl (fun x d => x * 10 + d) a = a * 10 ^ ds.length + bigVal ds := by
  induction ds with
  | nil => intro a; simp [bigVal]
  | cons d ds ih =>
    intro a
    simp only [List.foldl_cons, List.length_cons]
    rw [ih (a * 10 + d)]
    have : bigVal (d :: ds) = d * 10 ^ ds.length + bigVal ds := by
      unfold bigVal
      simp only [List.foldl_cons]
      rw [show 0 * 10 + d = d by ring]
      exact ih d
    rw [this, pow_succ]
    ring

/-- Helper: value of a digit cons. -/
theorem bigVal_cons (d : Nat) (ds : List Nat) :
    bigVal (d :: ds) = d * 10 ^ ds.length + bigVal ds := by
  unfold bigVal
  simp only [List.foldl_cons]
  rw [show 0 * 10 + d = d by ring]
  exact foldl_decimal ds d

/-- Helper: the wrapped decimal fold equals the exact value mod 2^32. -/
theorem foldl_decimal_mod (ds : List Nat) : ∀ p : Nat, p < 4294967296 →
    ds.foldl (fun x d => (x * 10 + d) % 4294967296) p =
      (p * 10 ^ ds.length + bigVal ds) % 4294967296 := by
  induction ds with
  | nil => intro p hp; simp [bigVal, Nat.mod_eq_of_lt hp]
  | cons d ds ih =>
    intro p hp
    simp only [List.foldl_cons, List.length_cons]
    rw [ih ((p * 10 + d) % 4294967296) (Nat.mod_lt _ (by omega))]
    rw [mod_shift_mul_add, bigVal_cons, pow_succ]
    congr 1
    ring

/-- Helper: the str_to_uint loop consumes a run of digit bytes while in a
part, wrapping the accumulating part mod 2^32. -/
theorem stuLoop_digits_aux (ds : List Nat) : ∀ rest : List Nat, ∀ allow itf : Bool,
    ∀ total part : Nat, (∀ d ∈ ds, d < 10) →
    stuLoop ((ds.map (fun d => d + 48)) ++ rest) allow itf true total part =
      stuLoop rest allow itf true total
        (ds.foldl (fun x d => (x * 10 + d) % 4294967296) part) := by
  induction ds with
  | nil => intro rest allow itf total part _; simp
  | cons d ds ih =>
    intro rest allow itf total part hds
    have hd : d < 10 := hds d (by simp)
    simp only [List.map_cons, List.cons_append, List.foldl_cons]
    rw [stuLoop.eq_def]
    dsimp only
    rw [if_pos (show isdigitB (d + 48) = true by
      simp only [isdigitB, Bool.and_eq_true, decide_eq_true_eq]; omega)]
    rw [show d + 48 - 48 = d by omega]
    exact ih rest allow itf total ((part * 10 + d) % 4294967296)
      (fun x hx => hds x (List.mem_cons_of_mem _ hx))

/-- Helper: the str_to_uint loop closes a part at a unit byte, adding the
scaled part into the total with wraparound. -/
theorem stuLoop_unit (u uv : Nat) (hu : unitVal u = some uv) :
    ∀ rest : List Nat, ∀ itf : Bool, ∀ total part : Nat,
    stuLoop (u :: rest) true itf true total part =
      stuLoop rest true true false ((total + part * uv) % 4294967296) 0 := by
  have hnd : isdigitB u = false := by
    unfold unitVal at hu
    split_ifs at hu with h1 h2 h3 h4 h5
    all_goals first
      | (rcases h1 with rfl | rfl <;> decide)
      | (rcases h2 with rfl | rfl <;> decide)
      | (rcases h3 with rfl | rfl <;> decide)
      | (rcases h4 with rfl | rfl <;> decide)
      | (rcases h5 with rfl | rfl <;> decide)
  intro rest itf total part
  rw [stuLoop.eq_def]
  dsimp only
  rw [if_neg (by simp [hnd]), if_neg (by simp), hu]

/-- Helper: the first digit run of a part, started from part accumulator 0,
folds to the digit-list value mod 2^32. -/
theorem foldPart_head (d : Nat) (ds' : List Nat) :
    List.foldl (fun x y => (x * 10 + y) % 4294967296) ((0 * 10 + d) % 4294967296) ds' =
      bigVal (d :: ds') % 4294967296 := by
  rw [foldl_decimal_mod ds' _ (Nat.mod_lt _ (by omega))]
  rw [mod_shift_mul_add, bigVal_cons]
  congr 1
  ring

/-- Helper: processing a full run list from a wrapped total accumulates the
run total mod 2^32. -/
theorem stuLoop_runs (rs : List (List Nat × Nat)) :
    ∀ total : Nat, total < 4294967296 →
    (∀ r ∈ rs, r.1 ≠ [] ∧ (∀ d ∈ r.1, d < 10) ∧ (unitVal r.2).isSome) →
    stuLoop (renderRuns rs) true true false total 0 =
      some ((total + runsTotal rs) % 4294967296) := by
  induction rs with
  | nil =>
    intro total htot _
    have h0 : stuLoop (renderRuns []) true true false total 0 = some total := rfl
    rw [h0]
    simp [runsTotal, Nat.mod_eq_of_lt htot]
  | cons r rs ih =>
    intro total htot hval
    obtain ⟨ds, u⟩ := r
    obtain ⟨hne1, hdig, hsome⟩ := hval (ds, u) (by simp)
    obtain ⟨uv, hu⟩ := Option.isSome_iff_exists.mp hsome
    rcases ds with _ | ⟨d, ds'⟩
    · exact absurd rfl hne1
    have hr : renderRuns (((d :: ds'), u) :: rs) =
        (d + 48) :: ((ds'.map (fun x => x + 48)) ++ (u :: renderRuns rs)) := by
      unfold renderRuns
      simp
    rw [hr, stuLoop.eq_def]
    dsimp only
    rw [if_pos (show isdigitB (d + 48) = true by
      simp only [isdigitB, Bool.and_eq_true, decide_eq_true_eq]
      have : d < 10 := hdig d (by simp)
      omega)]
    rw [show d + 48 - 48 = d by omega]
    rw [stuLoop_digits_aux ds' (u :: renderRuns rs) true true total ((0 * 10 + d) % 4294967296)
      (fun x hx => hdig x (List.mem_cons_of_mem _ hx))]
    rw [foldPart_head d ds']
    rw [stuLoop_unit u uv hu (renderRuns rs) true total (bigVal (d :: ds') % 4294967296)]
    rw [ih _ (Nat.mod_lt _ (by omega)) (fun x hx => hval x (List.mem_cons_of_mem _ hx))]
    have stepA : (total + bigVal (d :: ds') % 4294967296 * uv) % 4294967296 =
        (total + bigVal (d :: ds') * uv) % 4294967296 := by
      rw [Nat.add_comm total, mod_shift_mul_add, Nat.add_comm]
    rw [stepA, Nat.mod_add_mod]
    have hrt : runsTotal (((d :: ds'), u) :: rs) = bigVal (d :: ds') * uv + runsTotal rs := by
      unfold runsTotal
      simp [hu]
    rw [hrt]
    congr 1
    omega

/-- C7: in duration mode str_to_uint evaluates a nonempty sequence of
digits-unit runs (units w d h m s, case-insensitive via unitVal) to the sum
of the run values reduced mod 2^32, and in particular the string
2w1d2h5m6s evaluates successfully to 1303506. -/
theorem c7_duration_semantics (rs : List (List Nat × Nat)) (hne : rs ≠ [])
    (hval : ∀ r ∈ rs, r.1 ≠ [] ∧ (∀ d ∈ r.1, d < 10) ∧ (unitVal r.2).isSome) :
    str_to_uint (renderRuns rs) true = some (runsTotal rs % 4294967296) ∧
    str_to_uint (bytes (r"2w1d2h5m6s")) true = some 1303506 := by
  refine ⟨?_, by decide⟩
  rcases rs with _ | ⟨⟨ds, u⟩, rs⟩
  · exact absurd rfl hne
  obtain ⟨hne1, hdig, hsome⟩ := hval (ds, u) (by simp)
  obtain ⟨uv, hu⟩ := Option.isSome_iff_exists.mp hsome
  rcases ds with _ | ⟨d, ds'⟩
  · exact absurd rfl hne1
  have hr : renderRuns (((d :: ds'), u) :: rs) =
      (d + 48) :: ((ds'.map (fun x => x + 48)) ++ (u :: renderRuns rs)) := by
    unfold renderRuns
    simp
  unfold str_to_uint
  rw [if_neg (by rw [hr]; simp)]
  rw [hr, stuLoop.eq_def]
  dsimp only
  rw [if_pos (show isdigitB (d + 48) = true by
    simp only [isdigitB, Bool.and_eq_true, decide_eq_true_eq]
    have : d < 10 := hdig d (by simp)
    omega)]
  rw [show d + 48 - 48 = d by omega]
  rw [stuLoop_digits_aux ds' (u :: renderRuns rs) true false 0 ((0 * 10 + d) % 4294967296)
    (fun x hx => hdig x (List.mem_cons_of_mem _ hx))]
  rw [foldPart_head d ds']
  rw [stuLoop_unit u uv hu (renderRuns rs) false 0 (bigVal (d :: ds') % 4294967296)]
  rw [stuLoop_runs rs _ (Nat.mod_lt _ (by omega))
    (fun x hx => hval x (List.mem_cons_of_mem _ hx))]
  have stepA : (0 + bigVal (d :: ds') % 4294967296 * uv) % 4294967296 =
      (bigVal (d :: ds') * uv) % 4294967296 := by
    rw [Nat.zero_add]
    have h2 := mod_shift_mul_add (bigVal (d :: ds')) uv 0 4294967296
    rw [Nat.add_zero, Nat.add_zero] at h2
    exact h2
  rw [stepA, Nat.mod_add_mod]
  have hrt : runsTotal (((d :: ds'), u) :: rs) = bigVal (d :: ds') * uv + runsTotal rs := by
    unfold runsTotal
    simp [hu]
  rw [hrt]

/-- C7 witness: the run-list semantics applied at the runs of 2w1d2h5m6s,
whose rendering is that byte string and whose total is 1303506. -/
theorem c7_duration_semantics_witness :
    str_to_uint (renderRuns [([2], 119), ([1], 100), ([2], 104), ([5], 109), ([6], 115)]) true =
      some (runsTotal [([2], 119), ([1], 100), ([2], 104), ([5], 109), ([6], 115)] % 4294967296) ∧
    str_to_uint (bytes (r"2w1d2h5m6s")) true = some 1303506 :=
  c7_duration_semantics [([2], 119), ([1], 100), ([2], 104), ([5], 109), ([6], 115)]
    (by decide) (by decide)

/-- C8: the qualify contract.  An at-sign name returns the origin verbatim
exactly when an origin with nonzero length is present; an empty name with a
missing or empty origin fails; a sanitized non-empty relative name (no
trailing dot, no empty label, not the at-sign) yields name-dot under the
root origin and name-dot-origin otherwise, within the 255 length budget. -/
theorem c8_qualify_spec :
    (∀ o : string, o.len ≠ 0 → qualify_domain (bytes (r"@")) (some o) = some o) ∧
    (∀ o : string, o.len = 0 → qualify_domain (bytes (r"@")) (some o) = none) ∧
    (qualify_domain (bytes (r"@")) none = none) ∧
    (qualify_domain [] none = none) ∧
    (∀ o : string, o.len = 0 → qualify_domain [] (some o) = none) ∧
    (∀ (name : List Nat) (sn : string), sanitize_string name = some sn →
      sn.len ≠ 0 → ¬(sn.text.headD 0 = 46 ∧ sn.text.length ≥ 2) →
      hasDoubleDot sn.text = false → sn.text ≠ [64] → sn.text.getLastD 0 ≠ 46 →
      sn.len + 1 ≤ 255 →
      qualify_domain name (some ⟨[46], 1⟩) = some ⟨sn.text ++ [46], sn.len + 1⟩) ∧
    (∀ (name : List Nat) (sn o : string), sanitize_string name = some sn →
      sn.len ≠ 0 → ¬(sn.text.headD 0 = 46 ∧ sn.text.length ≥ 2) →
      hasDoubleDot sn.text = false → sn.text ≠ [64] → sn.text.getLastD 0 ≠ 46 →
      o.len ≠ 0 → o.text ≠ [46] → sn.len + 1 + o.len ≤ 255 →
      qualify_domain name (some o) = some ⟨sn.text ++ [46] ++ o.text, sn.len + 1 + o.len⟩) := by
  refine ⟨?_, ?_, by decide, by decide, ?_, ?_, ?_⟩
  · intro o ho
    unfold qualify_domain
    rw [show sanitize_string (bytes (r"@")) = some ⟨[64], 1⟩ from rfl]
    dsimp only
    simp [hasDoubleDot, ho]
  · intro o ho
    unfold qualify_domain
    rw [show sanitize_string (bytes (r"@")) = some ⟨[64], 1⟩ from rfl]
    dsimp only
    simp [hasDoubleDot, ho]
  · intro o ho
    unfold qualify_domain
    rw [show sanitize_string [] = some ⟨[], 0⟩ from rfl]
    dsimp only
    simp [ho]
  · intro name sn hsan hlen0 hhead hdd hat hlast hfit
    unfold qualify_domain
    rw [hsan]
    dsimp only
    rw [if_pos hlen0, if_neg hhead, if_neg (by simp [hdd]), if_neg hat, if_neg hlast]
    rw [if_neg (by decide), if_pos rfl, if_neg (by omega)]
  · intro name sn o hsan hlen0 hhead hdd hat hlast honz hort hfit
    unfold qualify_domain
    rw [hsan]
    dsimp only
    rw [if_pos hlen0, if_neg hhead, if_neg (by simp [hdd]), if_neg hat, if_neg hlast]
    rw [if_neg honz, if_neg hort, if_neg (by omega)]

/-- C8 witness: each clause of the qualify contract applied at concrete
inputs. -/
theorem c8_qualify_spec_witness :
    qualify_domain (bytes (r"@")) (some ⟨bytes (r"x."), 2⟩) = some ⟨bytes (r"x."), 2⟩ ∧
    qualify_domain (bytes (r"@")) (some ⟨[], 0⟩) = none ∧
    qualify_domain (bytes (r"@")) none = none ∧
    qualify_domain [] none = none ∧
    qualify_domain [] (some ⟨[], 0⟩) = none ∧
    qualify_domain (bytes (r"foo")) (some ⟨[46], 1⟩) =
      some ⟨bytes (r"foo") ++ [46], 3 + 1⟩ ∧
    qualify_domain (bytes (r"foo")) (some ⟨bytes (r"zone."), 5⟩) =
      some ⟨bytes (r"foo") ++ [46] ++ bytes (r"zone."), 3 + 1 + 5⟩ :=
  ⟨c8_qualify_spec.1 ⟨bytes (r"x."), 2⟩ (by decide),
   c8_qualify_spec.2.1 ⟨[], 0⟩ rfl,
   c8_qualify_spec.2.2.1,
   c8_qualify_spec.2.2.2.1,
   c8_qualify_spec.2.2.2.2.1 ⟨[], 0⟩ rfl,
   c8_qualify_spec.2.2.2.2.2.1 (bytes (r"foo")) ⟨bytes (r"foo"), 3⟩ (by decide)
     (by decide) (by decide) (by decide) (by decide) (by decide) (by decide),
   c8_qualify_spec.2.2.2.2.2.2 (bytes (r"foo")) ⟨bytes (r"foo"), 3⟩ ⟨bytes (r"zone."), 5⟩
     (by decide) (by decide) (by decide) (by decide) (by decide) (by decide)
     (by decide) (by decide) (by decide)⟩
